import Mathlib

/-!
Verification of the pagination and table-layout engine of `streamlit_app.py`
(an Excel-to-PDF generator).  Each Python function of the source is embedded
as an executable Lean definition; machine floats are modelled as exact
rationals (`ℚ`), fallible code returns `Option`/`Except`, and the external
width-measurement collaborator (`pdf.get_string_width`) is modelled as a
per-character additive cost function.
-/

namespace ExcelToPdf

/-! ## FilenameSanitizer (`sanitize_filename`, lines 13-16)

Python:
```
name = re.sub(r'[<>:"/\\|?*]', '', str(name))
name = name.replace(' ', '_')[:50]
return name or "default"
```
-/

def illegal_chars : List Char := ['<', '>', ':', '"', '/', '\\', '|', '?', '*']

/-- The character list after `re.sub` (drop illegal characters), `.replace(' ', '_')`
and `[:50]`. -/
def sanitize_core (name : String) : List Char :=
  ((name.data.filter (fun c => decide (c ∉ illegal_chars))).map
    (fun c => if c = ' ' then '_' else c)).take 50

/-- `name or "default"`: the empty string is falsy in Python. -/
def sanitize_filename (name : String) : String :=
  if sanitize_core name = [] then "default" else String.mk (sanitize_core name)

/-! ## PageRangeResolver (`get_page_ranges`, lines 18-29)

Python builds `horizontal_breaks = [0] + [b.id for b in sheet.row_breaks.brk]`
and, for the boundary at index `idx`, emits `start_row = h_break + 1`
(forced to `2` when `idx == 0`) and `end_row = next boundary`, or the
sheet's last row when no boundary follows. -/

def pageRangesAux (lastRow : Nat) : List Nat → List (Nat × Nat)
  | [] => []
  | [b] => [(b + 1, lastRow)]
  | b :: b2 :: rest => (b + 1, b2) :: pageRangesAux lastRow (b2 :: rest)

/-- `start_row = h_break + 1` for every boundary, except that the first
page's start row is forced to `2` (`if idx == 0: start_row = 2`). -/
def get_page_ranges (breaks : List Nat) (lastRow : Nat) : List (Nat × Nat) :=
  match pageRangesAux lastRow (0 :: breaks) with
  | [] => []
  | (_, e) :: rest => (2, e) :: rest

/-- The dictionary actually returned by `get_page_ranges`: keys `Page{idx+1}`,
values `A{start}:{lastCol}{end}`. -/
def render_page_ranges (breaks : List Nat) (lastRow : Nat) (lastCol : String) :
    List (String × String) :=
  (get_page_ranges breaks lastRow).enum.map
    (fun pr => ("Page" ++ toString (pr.1 + 1),
      "A" ++ toString pr.2.1 ++ ":" ++ lastCol ++ toString pr.2.2))

/-- `main` (lines 195-197) warns "No page breaks detected" exactly when the
returned mapping is empty. -/
def main_no_breaks_warning (breaks : List Nat) (lastRow : Nat) : Bool :=
  (get_page_ranges breaks lastRow).isEmpty

/-! ### PageRangeResolver lemmas -/

theorem pageRangesAux_ne_nil (lastRow : Nat) (b : Nat) (bs : List Nat) :
    pageRangesAux lastRow (b :: bs) ≠ [] := by
  cases bs <;> simp [pageRangesAux]

theorem pageRangesAux_last (lastRow : Nat) :
    ∀ (bs : List Nat), bs ≠ [] →
      ((pageRangesAux lastRow bs).map Prod.snd).getLast? = some lastRow := by
  intro bs
  induction bs with
  | nil => intro h; exact absurd rfl h
  | cons b rest ih =>
    intro _
    cases rest with
    | nil => simp [pageRangesAux]
    | cons b2 r2 =>
      have h2 := ih (by simp)
      cases r2 with
      | nil => simp [pageRangesAux]
      | cons b3 r3 => simpa [pageRangesAux] using h2

theorem pageRangesAux_chain (lastRow : Nat) :
    ∀ (bs : List Nat), List.Chain' (· < ·) bs →
      List.Chain' (fun p q : Nat × Nat => p.1 < q.1 ∧ q.1 = p.2 + 1)
        (pageRangesAux lastRow bs) := by
  intro bs
  induction bs with
  | nil => intro _; simp [pageRangesAux]
  | cons b rest ih =>
    intro hs
    cases rest with
    | nil => simp [pageRangesAux]
    | cons b2 r2 =>
      have hlt : b < b2 := (List.chain'_cons.mp hs).1
      have htail := ih (List.chain'_cons.mp hs).2
      cases r2 with
      | nil =>
        simp only [pageRangesAux] at htail ⊢
        exact List.chain'_cons.mpr ⟨⟨by omega, rfl⟩, htail⟩
      | cons b3 r3 =>
        simp only [pageRangesAux] at htail ⊢
        exact List.chain'_cons.mpr ⟨⟨by omega, rfl⟩, htail⟩

theorem pageRangesAux_bounds (lastRow : Nat) :
    ∀ (bs : List Nat), List.Chain' (· < ·) bs → (∀ m ∈ bs, m < lastRow) →
      ∀ p ∈ pageRangesAux lastRow bs, p.1 ≤ p.2 := by
  intro bs
  induction bs with
  | nil => intro _ _ p hp; simp [pageRangesAux] at hp
  | cons b rest ih =>
    intro hs hb p hp
    cases rest with
    | nil =>
      simp [pageRangesAux] at hp
      subst hp
      have : b < lastRow := hb b (by simp)
      simp; omega
    | cons b2 r2 =>
      have hlt : b < b2 := (List.chain'_cons.mp hs).1
      simp only [pageRangesAux, List.mem_cons] at hp
      rcases hp with h | h
      · subst h; simp; omega
      · exact ih (List.chain'_cons.mp hs).2
          (fun m hm => hb m (List.mem_cons_of_mem _ hm)) p h

theorem get_page_ranges_cons (b1 : Nat) (bs : List Nat) (lastRow : Nat) :
    get_page_ranges (b1 :: bs) lastRow = (2, b1) :: pageRangesAux lastRow (b1 :: bs) := by
  cases bs <;> rfl

/-- C3: for every non-empty break-marker set (strictly ascending, each marker
strictly between the header row 1 and the last row), `get_page_ranges` yields
ranges ordered by increasing start row, contiguous (`next.start = prev.end + 1`,
hence non-overlapping), starting at row 2 and ending at the sheet's last row;
in particular breaks `[5]` with last row `10` give exactly `A2:D5` and `A6:D10`. -/
theorem get_page_ranges_spec (breaks : List Nat) (lastRow : Nat)
    (hne : breaks ≠ [])
    (hsort : List.Chain' (· < ·) breaks)
    (hlo : ∀ m ∈ breaks, 1 < m)
    (hhi : ∀ m ∈ breaks, m < lastRow) :
    ((get_page_ranges breaks lastRow).map Prod.fst).head? = some 2 ∧
    List.Chain' (fun p q : Nat × Nat => p.1 < q.1 ∧ q.1 = p.2 + 1)
      (get_page_ranges breaks lastRow) ∧
    (∀ p ∈ get_page_ranges breaks lastRow, p.1 ≤ p.2) ∧
    ((get_page_ranges breaks lastRow).map Prod.snd).getLast? = some lastRow ∧
    get_page_ranges [5] 10 = [(2, 5), (6, 10)] ∧
    render_page_ranges [5] 10 "D" = [("Page1", "A2:D5"), ("Page2", "A6:D10")] := by
  obtain ⟨b1, bs, rfl⟩ := List.exists_cons_of_ne_nil hne
  have hb1 : 1 < b1 := hlo b1 (by simp)
  refine ⟨?_, ?_, ?_, ?_, by decide, by decide⟩
  · rw [get_page_ranges_cons]; simp
  · rw [get_page_ranges_cons]
    cases bs with
    | nil =>
      simp only [pageRangesAux]
      exact List.chain'_cons.mpr ⟨⟨by omega, rfl⟩, List.chain'_singleton _⟩
    | cons b2 bs2 =>
      simp only [pageRangesAux]
      exact List.chain'_cons.mpr ⟨⟨by omega, rfl⟩, by
        have h := pageRangesAux_chain lastRow (b1 :: b2 :: bs2) hsort
        simpa [pageRangesAux] using h⟩
  · rw [get_page_ranges_cons]
    intro p hp
    rcases List.mem_cons.mp hp with h | h
    · subst h; simp; omega
    · exact pageRangesAux_bounds lastRow (b1 :: bs) hsort hhi p h
  · rw [get_page_ranges_cons]
    have hlast := pageRangesAux_last lastRow (b1 :: bs) (by simp)
    rcases hx : pageRangesAux lastRow (b1 :: bs) with _ | ⟨x, L⟩
    · exact absurd hx (pageRangesAux_ne_nil lastRow b1 bs)
    · rw [hx] at hlast
      simp only [List.map_cons]
      rw [List.getLast?_cons_cons]
      simpa using hlast

/-- Witness for C3 at breaks `[5]`, last row `10`. -/
theorem get_page_ranges_spec_witness :
    ((get_page_ranges [5] 10).map Prod.fst).head? = some 2 ∧
    List.Chain' (fun p q : Nat × Nat => p.1 < q.1 ∧ q.1 = p.2 + 1)
      (get_page_ranges [5] 10) ∧
    (∀ p ∈ get_page_ranges [5] 10, p.1 ≤ p.2) ∧
    ((get_page_ranges [5] 10).map Prod.snd).getLast? = some 10 ∧
    get_page_ranges [5] 10 = [(2, 5), (6, 10)] ∧
    render_page_ranges [5] 10 "D" = [("Page1", "A2:D5"), ("Page2", "A6:D10")] :=
  get_page_ranges_spec [5] 10 (by decide) (List.chain'_singleton 5) (by decide) (by decide)

/-- C1: with an empty break-marker set the code does NOT return an empty
result: the boundary list is `[0]` alone, so `get_page_ranges` yields one
page `Page1 = A2:D{lastRow}` covering the whole sheet (here last row 10),
one document is produced, and `main`'s "No page breaks detected" warning
branch (`if not page_ranges`) is unreachable. -/
theorem get_page_ranges_no_breaks :
    get_page_ranges [] 10 = [(2, 10)] ∧
    render_page_ranges [] 10 "D" = [("Page1", "A2:D10")] ∧
    main_no_breaks_warning [] 10 = false := by
  refine ⟨by decide, by decide, by decide⟩

/-! ### FilenameSanitizer theorems -/

theorem sanitize_core_chars (name : String) :
    ∀ c ∈ sanitize_core name, c ∉ illegal_chars ∧ c ≠ ' ' := by
  intro c hc
  have hc2 := List.take_subset 50 _ hc
  rcases List.mem_map.mp hc2 with ⟨c0, hc0, rfl⟩
  have h1 : c0 ∉ illegal_chars := of_decide_eq_true (List.mem_filter.mp hc0).2
  by_cases hsp : c0 = ' '
  · subst hsp; rw [if_pos rfl]; exact ⟨by decide, by decide⟩
  · rw [if_neg hsp]; exact ⟨h1, hsp⟩

/-- C8: `sanitize_filename` is a total function whose output contains none of
the characters `< > : " / \ | ? *`, contains no space, has at most 50
characters, and is never the empty string. -/
theorem sanitize_filename_spec (name : String) :
    (∀ c ∈ (sanitize_filename name).data, c ∉ illegal_chars ∧ c ≠ ' ') ∧
    (sanitize_filename name).data.length ≤ 50 ∧
    sanitize_filename name ≠ "" := by
  unfold sanitize_filename
  by_cases h : sanitize_core name = []
  · rw [if_pos h]
    exact ⟨by decide, by decide, by decide⟩
  · rw [if_neg h]
    refine ⟨?_, ?_, ?_⟩
    · intro c hc
      exact sanitize_core_chars name c hc
    · exact List.length_take_le 50 _
    · intro hcon
      exact h (by simpa using congrArg String.data hcon)

/-! ## ColumnWidthCalculator (`calculate_column_widths`, lines 38-51)

Per header: `width = pdf.get_string_width(str(header)) + 6`; `Details`
columns get `max(width, 50)`, all others `min(width, 30)`; if the total
exceeds `max_width` every width is multiplied by `max_width / total_width`.
`pdf.get_string_width` is modelled by an arbitrary measurement function
`measureB : String → ℚ` (bold 8pt header font). -/

def unconstrained_widths (measureB : String → ℚ) (headers : List String) : List ℚ :=
  headers.map (fun h =>
    if h = "Details" then max (measureB h + 6) 50 else min (measureB h + 6) 30)

def calculate_column_widths (measureB : String → ℚ) (headers : List String)
    (maxWidth : ℚ) : List ℚ :=
  let ws := unconstrained_widths measureB headers
  if maxWidth < ws.sum then ws.map (fun w => w * (maxWidth / ws.sum)) else ws

theorem sum_map_mul_ratio (l : List ℚ) (c : ℚ) :
    (l.map (fun w => w * c)).sum = l.sum * c := by
  induction l with
  | nil => simp
  | cons a t ih => simp [ih, add_mul]

/-- C4 (amended): the output widths sum to at most `maxWidth`; equality
implies the unconstrained sum was AT LEAST `maxWidth` (not necessarily
strictly greater); when the unconstrained sum strictly exceeds `maxWidth`
every width is multiplied by the single ratio `maxWidth / total`, so
cross-ratios between any two columns are preserved exactly; otherwise the
widths are returned unscaled. -/
theorem calculate_column_widths_spec (measureB : String → ℚ) (headers : List String)
    (maxWidth : ℚ) (hpos : 0 < maxWidth) :
    (calculate_column_widths measureB headers maxWidth).sum ≤ maxWidth ∧
    ((calculate_column_widths measureB headers maxWidth).sum = maxWidth →
      maxWidth ≤ (unconstrained_widths measureB headers).sum) ∧
    (maxWidth < (unconstrained_widths measureB headers).sum →
      calculate_column_widths measureB headers maxWidth =
        (unconstrained_widths measureB headers).map
          (fun w => w * (maxWidth / (unconstrained_widths measureB headers).sum))) ∧
    ((unconstrained_widths measureB headers).sum ≤ maxWidth →
      calculate_column_widths measureB headers maxWidth =
        unconstrained_widths measureB headers) ∧
    (maxWidth < (unconstrained_widths measureB headers).sum →
      ∀ (i j : Nat) (wi wj ri rj : ℚ), (unconstrained_widths measureB headers)[i]? = some wi →
        (unconstrained_widths measureB headers)[j]? = some wj →
        (calculate_column_widths measureB headers maxWidth)[i]? = some ri →
        (calculate_column_widths measureB headers maxWidth)[j]? = some rj →
        ri * wj = rj * wi) := by
  set ws := unconstrained_widths measureB headers with hws
  by_cases hlt : maxWidth < ws.sum
  · have hsum0 : ws.sum ≠ 0 := ne_of_gt (lt_trans hpos hlt)
    have hres : calculate_column_widths measureB headers maxWidth =
        ws.map (fun w => w * (maxWidth / ws.sum)) := by
      unfold calculate_column_widths
      rw [← hws, if_pos hlt]
    have hsum : (calculate_column_widths measureB headers maxWidth).sum = maxWidth := by
      rw [hres, sum_map_mul_ratio, mul_comm]
      exact div_mul_cancel₀ maxWidth hsum0
    refine ⟨le_of_eq hsum, fun _ => le_of_lt hlt, fun _ => hres,
      fun hle => absurd hlt (not_lt.mpr hle), fun _ => ?_⟩
    intro i j wi wj ri rj hwi hwj hri hrj
    rw [hres] at hri hrj
    rw [List.getElem?_map, hwi] at hri
    rw [List.getElem?_map, hwj] at hrj
    have hri' : ri = wi * (maxWidth / ws.sum) := by
      simpa using hri.symm
    have hrj' : rj = wj * (maxWidth / ws.sum) := by
      simpa using hrj.symm
    rw [hri', hrj']; ring
  · have hres : calculate_column_widths measureB headers maxWidth = ws := by
      unfold calculate_column_widths
      rw [← hws, if_neg hlt]
    have hle := not_lt.mp hlt
    refine ⟨by rw [hres]; exact hle, fun heq => ?_, fun hc => absurd hc hlt,
      fun _ => hres, fun hc => absurd hc hlt⟩
    rw [hres] at heq
    exact le_of_eq heq.symm

/-- Witness for C4 at `measureB = fun _ => 1`, headers `["ID"]`, max width 500. -/
theorem calculate_column_widths_spec_witness :
    (calculate_column_widths (fun _ => 1) ["ID"] 500).sum ≤ 500 ∧
    ((calculate_column_widths (fun _ => 1) ["ID"] 500).sum = 500 →
      (500 : ℚ) ≤ (unconstrained_widths (fun _ => 1) ["ID"]).sum) ∧
    ((500 : ℚ) < (unconstrained_widths (fun _ => 1) ["ID"]).sum →
      calculate_column_widths (fun _ => 1) ["ID"] 500 =
        (unconstrained_widths (fun _ => 1) ["ID"]).map
          (fun w => w * (500 / (unconstrained_widths (fun _ => 1) ["ID"]).sum))) ∧
    ((unconstrained_widths (fun _ => 1) ["ID"]).sum ≤ 500 →
      calculate_column_widths (fun _ => 1) ["ID"] 500 =
        unconstrained_widths (fun _ => 1) ["ID"]) ∧
    ((500 : ℚ) < (unconstrained_widths (fun _ => 1) ["ID"]).sum →
      ∀ (i j : Nat) (wi wj ri rj : ℚ), (unconstrained_widths (fun _ => 1) ["ID"])[i]? = some wi →
        (unconstrained_widths (fun _ => 1) ["ID"])[j]? = some wj →
        (calculate_column_widths (fun _ => 1) ["ID"] 500)[i]? = some ri →
        (calculate_column_widths (fun _ => 1) ["ID"] 500)[j]? = some rj →
        ri * wj = rj * wi) :=
  calculate_column_widths_spec (fun _ => 1) ["ID"] 500 (by norm_num)

/-- C4 counterexample: ten `Details` columns whose measured header width is 0
give unconstrained widths of exactly 50 each, an unconstrained total of
exactly 500 — NOT exceeding the max — yet the returned widths sum to exactly
the max 500.  So "equality only when the unconstrained sum exceeded the max"
is false as stated. -/
theorem calculate_column_widths_equality_cex :
    (calculate_column_widths (fun _ => 0) (List.replicate 10 "Details") 500).sum = 500 ∧
    ¬ (500 : ℚ) < (unconstrained_widths (fun _ => 0) (List.replicate 10 "Details")).sum := by
  have hmax : max (6:ℚ) 50 = 50 := max_eq_right (by norm_num)
  have hws : unconstrained_widths (fun _ => 0) (List.replicate 10 "Details") =
      List.replicate 10 (50:ℚ) := by
    simp [unconstrained_widths, hmax]
  have hsum : (List.replicate 10 (50:ℚ)).sum = 500 := by
    rw [List.sum_replicate, nsmul_eq_mul]; norm_num
  constructor
  · simp only [calculate_column_widths]
    rw [hws, hsum, if_neg (lt_irrefl 500)]
    exact hsum
  · rw [hws, hsum]
    exact lt_irrefl 500

/-! ## ArchiveBuilder (`zip_pdfs`, lines 175-179)

Python opens the archive and writes every listed file; there is no emptiness
check.  File readability (an external filesystem property) is modelled by an
oracle `readable`: writing an unreadable file raises, anything else succeeds
with the archive name and the entry list. -/

def zip_pdfs (readable : String → Bool) (pdf_files : List String)
    (zip_filename : String) : Except String (String × List String) :=
  match pdf_files.find? (fun f => ! readable f) with
  | some f => .error f
  | none => .ok (zip_filename, pdf_files)

/-- C9 counterexample: on an empty file list `zip_pdfs` does not fail — it
returns the (empty) archive `generated_pdfs.zip`. -/
theorem zip_pdfs_empty_cex :
    zip_pdfs (fun _ => true) [] "generated_pdfs.zip" =
      Except.ok ("generated_pdfs.zip", []) := rfl

/-- C9 (amended): `zip_pdfs` never fails on an empty output list; it produces
an archive with zero entries, signalling nothing. -/
theorem zip_pdfs_empty_ok (readable : String → Bool) (zip_filename : String) :
    zip_pdfs readable [] zip_filename = Except.ok (zip_filename, []) := rfl

/-! ## Row placement loop of `save_as_pdf` (lines 105-166)

`effective_page_height = pdf.h - pdf.t_margin - pdf.b_margin`; for each data
row the code checks `current_y + row_height > effective_page_height` with the
FIXED `row_height = 4`, adds a page (cursor reset to the top margin) if so,
draws the row at the resulting `start_y`, and afterwards advances by
`max_height`, the maximum of `row_height` and every wrapped cell's rendered
height.  `place_rows H tm rh heights cur` returns the `(start_y, max_height)`
pair of every placed row. -/

def place_rows (H tm rh : ℚ) : List ℚ → ℚ → List (ℚ × ℚ)
  | [], _ => []
  | rowH :: rest, cur =>
    ((if H < cur + rh then tm else cur), rowH) ::
      place_rows H tm rh rest ((if H < cur + rh then tm else cur) + rowH)

/-- C2 counterexample (landscape-A4-like numbers: printable height 180, top
margin 10, minimum row height 4, cursor 18 after the header block): a row
whose wrapped cells are 42 lines tall (height `42 × 4 = 168`) passes the
check `18 + 4 > 180`? no — so it is placed at `start_y = 18`, where
`18 + 168 = 186` exceeds the printable height 180. -/
theorem place_rows_overflow_cex :
    place_rows 180 10 4 [168] 18 = [((18 : ℚ), 168)] ∧
    (180 : ℚ) < 18 + 168 := by
  have h1 : ¬ (180:ℚ) < 18 + 4 := by norm_num
  exact ⟨by simp [place_rows, h1], by norm_num⟩

/-- C2 (amended): the pre-placement check uses only the fixed minimum row
height: every placed row satisfies `start_y + minimumRowHeight ≤ H` (when the
top margin leaves room for one minimal row), while the row's computed height
is only used to advance the cursor afterwards. -/
theorem place_rows_min_check (H tm rh : ℚ) (rows : List ℚ) (cur : ℚ)
    (htm : tm + rh ≤ H) :
    ∀ p ∈ place_rows H tm rh rows cur, p.1 + rh ≤ H := by
  induction rows generalizing cur with
  | nil => intro p hp; simp [place_rows] at hp
  | cons rowH rest ih =>
    intro p hp
    rcases List.mem_cons.mp hp with h1 | h1
    · subst h1
      dsimp only
      split
      · exact htm
      · rename_i hno
        have := le_of_not_lt hno
        linarith
    · exact ih _ p h1

/-- Witness for C2's amended theorem: two short rows placed from cursor 18. -/
theorem place_rows_min_check_witness :
    (10 : ℚ) + 4 ≤ 180 ∧ ∀ p ∈ place_rows 180 10 4 [8, 8] 18, p.1 + 4 ≤ 180 :=
  ⟨by norm_num, place_rows_min_check 180 10 4 [8, 8] 18 (by norm_num)⟩

/-! ## CellFormatter (per-cell branch of `save_as_pdf`, lines 120-138)

A pandas cell value is `None`/NaN, an int, a float, or a string.  NaN is
modelled together with `None` (both satisfy `pd.isna` and both have no exact
rational counterpart).  Python semantics modelled exactly:
`int(x)` truncates floats toward zero (and parses strings, raising on
failure); `round(x, 2)` rounds to 2 decimal places with ties to even;
`f"£{x:.2f}"` prints with exactly two (half-even-rounded) decimals and
raises on strings; `str(x)` of a float with at most 2 decimals prints the
minimal decimal form. -/

inductive PyVal where
  | none
  | int (n : ℤ)
  | float (q : ℚ)
  | str (s : String)
deriving DecidableEq

def isna : PyVal → Bool
  | .none => true
  | _ => false

/-- Python `int(·)` on a number: truncation toward zero. -/
def truncInt (q : ℚ) : ℤ := if 0 ≤ q then ⌊q⌋ else ⌈q⌉

/-- Round to the nearest integer, ties to even (Python `round`). -/
def roundHalfEven (q : ℚ) : ℤ :=
  if q - ⌊q⌋ < 1/2 then ⌊q⌋
  else if 1/2 < q - ⌊q⌋ then ⌊q⌋ + 1
  else if ⌊q⌋ % 2 = 0 then ⌊q⌋ else ⌊q⌋ + 1

/-- Python `round(q, 2)`. -/
def pyRound2 (q : ℚ) : ℚ := (roundHalfEven (q * 100) : ℚ) / 100

def twoDigits (n : Nat) : String := (if n < 10 then "0" else "") ++ toString n

/-- Python `f"£{q:.2f}"`. -/
def moneyFmt (q : ℚ) : String :=
  "£" ++ (if roundHalfEven (q * 100) < 0 then "-" else "") ++
    toString ((roundHalfEven (q * 100)).natAbs / 100) ++ "." ++
    twoDigits ((roundHalfEven (q * 100)).natAbs % 100)

/-- Python `str(q)` for a float holding at most two decimals (the only floats
that reach the plain branch, every float having passed `round(item, 2)`):
minimal decimal form, at least one fractional digit. -/
def floatStr (q : ℚ) : String :=
  (if roundHalfEven (q * 100) < 0 then "-" else "") ++
    toString ((roundHalfEven (q * 100)).natAbs / 100) ++ "." ++
    (if (roundHalfEven (q * 100)).natAbs % 100 % 10 = 0
      then toString ((roundHalfEven (q * 100)).natAbs % 100 / 10)
      else twoDigits ((roundHalfEven (q * 100)).natAbs % 100))

def pyStr : PyVal → String
  | .none => "None"
  | .int n => toString n
  | .float q => floatStr q
  | .str s => s

/-- Python `int(·)` on an arbitrary value; `Option.none` is an exception. -/
def pyInt : PyVal → Option ℤ
  | .int n => some n
  | .float q => some (truncInt q)
  | .str s => s.trim.toInt?
  | .none => Option.none

def integer_cols : List String := ["Contract", "Contract_Reference_Number"]

def currency_cols : List String := ["RetroRate", "Rate", "Volume", "Retro_Value", "Retro Rate"]

/-- Lines 126-138 of `save_as_pdf`: integer coercion for contract columns,
generic 2-decimal rounding for numbers, `£`-prefixed 2-decimal format for
currency columns, plain `str` (empty for null) otherwise.  `Option.none`
models a raised exception. -/
def formatCellContent (header : String) (item0 : PyVal) : Option String :=
  let step1 : Option PyVal :=
    if header ∈ integer_cols then
      if isna item0 then some (.str "")
      else (pyInt item0).map PyVal.int
    else some item0
  match step1 with
  | Option.none => Option.none
  | some item1 =>
    let item2 : PyVal :=
      match item1 with
      | .float q => .float (pyRound2 q)
      | v => v
    if header ∈ currency_cols ∧ isna item2 = false then
      match item2 with
      | .int n => some (moneyFmt (n : ℚ))
      | .float q => some (moneyFmt q)
      | _ => Option.none
    else
      some (if isna item2 then "" else pyStr item2)

/-! ### CellFormatter evaluation lemmas -/

theorem rhe_half_1234 : roundHalfEven (2469/2) = 1234 := by
  have hfl : ⌊(2469/2 : ℚ)⌋ = 1234 := by
    rw [Int.floor_eq_iff]
    constructor <;> norm_num
  unfold roundHalfEven
  rw [hfl]
  norm_num

theorem rhe_whole_1234 : roundHalfEven ((617:ℚ)/50 * 100) = 1234 := by
  have h : ((617:ℚ)/50 * 100) = ((1234 : ℤ) : ℚ) := by norm_num
  rw [h]
  have hfl : ⌊((1234 : ℤ) : ℚ)⌋ = 1234 := Int.floor_intCast 1234
  unfold roundHalfEven
  rw [hfl]
  norm_num

theorem pyRound2_12345 : pyRound2 (12345/1000) = 617/50 := by
  have hval : ((12345:ℚ)/1000) * 100 = 2469/2 := by norm_num
  unfold pyRound2
  rw [hval, rhe_half_1234]
  norm_num

theorem moneyFmt_1234 : moneyFmt (617/50) = "£12.34" := by
  unfold moneyFmt
  rw [rhe_whole_1234]
  rfl

theorem rate_12345_eval :
    formatCellContent "Rate" (.float (12345/1000)) = some "£12.34" := by
  unfold formatCellContent
  rw [if_neg (by decide : ¬("Rate" ∈ integer_cols))]
  dsimp only
  rw [pyRound2_12345]
  rw [if_pos ⟨by decide, rfl⟩]
  rw [moneyFmt_1234]

/-- C5 counterexample: the raw value `12.345` in a `Rate` column is NOT
displayed as `£12.35`.  Python's `round(12.345, 2)` rounds the exact tie
half-to-even (and the binary double `12.345` is in fact slightly below the
tie), giving `12.34`, so the rendered cell is `£12.34`. -/
theorem rate_format_cex :
    formatCellContent "Rate" (.float (12345/1000)) ≠ some "£12.35" := by
  rw [rate_12345_eval]
  simp

/-- C5 (amended): the raw value `12.345` in a `Rate` column is displayed as
`£12.34`: rounded to two decimals (ties to even: `12.345 → 12.34`), then
currency-prefixed with exactly two decimals forced. -/
theorem rate_format_amended :
    formatCellContent "Rate" (.float (12345/1000)) = some "£12.34" ∧
    pyRound2 (12345/1000) = 617/50 ∧
    moneyFmt (617/50) = "£12.34" :=
  ⟨rate_12345_eval, pyRound2_12345, moneyFmt_1234⟩

theorem integer_col_float (header : String) (q : ℚ)
    (h1 : header ∈ integer_cols) (h2 : header ∉ currency_cols) :
    formatCellContent header (.float q) = some (toString (truncInt q)) := by
  unfold formatCellContent
  rw [if_pos h1]
  rw [if_neg (by simp [isna])]
  dsimp only [pyInt, Option.map]
  rw [if_neg (fun hc => h2 hc.1)]
  rfl

theorem integer_col_int (header : String) (n : ℤ)
    (h1 : header ∈ integer_cols) (h2 : header ∉ currency_cols) :
    formatCellContent header (.int n) = some (toString n) := by
  unfold formatCellContent
  rw [if_pos h1]
  rw [if_neg (by simp [isna])]
  dsimp only [pyInt, Option.map]
  rw [if_neg (fun hc => h2 hc.1)]
  rfl

theorem integer_col_null (header : String)
    (h1 : header ∈ integer_cols) (h2 : header ∉ currency_cols) :
    formatCellContent header PyVal.none = some "" := by
  unfold formatCellContent
  rw [if_pos h1, if_pos (show isna PyVal.none = true from rfl)]
  dsimp only
  rw [if_neg (fun hc => h2 hc.1)]
  rfl

theorem truncInt_129_10 : truncInt (129/10) = 12 := by
  unfold truncInt
  rw [if_pos (by norm_num)]
  rw [Int.floor_eq_iff]
  constructor <;> norm_num

theorem truncInt_neg_129_10 : truncInt (-129/10) = -12 := by
  unfold truncInt
  rw [if_neg (by norm_num)]
  rw [Int.ceil_eq_iff]
  constructor <;> norm_num

/-- C10: in a `Contract` or `Contract_Reference_Number` column a non-null
numeric value is displayed as its integer truncation toward zero (`12.9` as
`"12"`, `-12.9` as `"-12"`), and a null/NaN value as the empty string. -/
theorem contract_int_display :
    (∀ q : ℚ, formatCellContent "Contract" (.float q) = some (toString (truncInt q))) ∧
    (∀ q : ℚ, formatCellContent "Contract_Reference_Number" (.float q) =
      some (toString (truncInt q))) ∧
    (∀ n : ℤ, formatCellContent "Contract" (.int n) = some (toString n)) ∧
    (∀ n : ℤ, formatCellContent "Contract_Reference_Number" (.int n) =
      some (toString n)) ∧
    formatCellContent "Contract" PyVal.none = some "" ∧
    formatCellContent "Contract_Reference_Number" PyVal.none = some "" ∧
    formatCellContent "Contract" (.float (129/10)) = some "12" ∧
    formatCellContent "Contract" (.float (-129/10)) = some "-12" := by
  refine ⟨fun q => integer_col_float _ q (by decide) (by decide),
    fun q => integer_col_float _ q (by decide) (by decide),
    fun n => integer_col_int _ n (by decide) (by decide),
    fun n => integer_col_int _ n (by decide) (by decide),
    integer_col_null _ (by decide) (by decide),
    integer_col_null _ (by decide) (by decide), ?_, ?_⟩
  · rw [integer_col_float _ _ (by decide) (by decide), truncInt_129_10]; rfl
  · rw [integer_col_float _ _ (by decide) (by decide), truncInt_neg_129_10]; rfl

/-! ## Output-file naming (`save_as_pdf`, lines 61-80)

`brand_idx = 2` is HARDCODED (the header lookup for
`BrandSupplierDescription`/`Supplier` is commented out);
`ccn_idx = headers.index('CCN') if 'CCN' in headers else None`.
Empty page data falls back to `f"{idx}.pdf"` (the `Page{n}` dictionary key);
otherwise, when `ccn_idx` is not `None` (and `brand_idx` never is), the name
is built from the first data row's column 2 and column `ccn_idx` values.
Cell values are taken in their `str(·)` form; an out-of-range column access
(`data.iloc[0, 2]` on a 2-column sheet) raises, modelled as `Option.none`. -/

def pdf_file_name (headers : List String) (pageId : String)
    (data : List (List String)) : Option String :=
  match data with
  | [] => some (pageId ++ ".pdf")
  | row0 :: _ =>
    match headers.findIdx? (fun h => h == "CCN") with
    | Option.none => some (pageId ++ ".pdf")
    | some ci =>
      match row0[2]?, row0[ci]? with
      | some bv, some cv =>
        some (sanitize_filename bv ++ "_" ++ sanitize_filename cv ++ ".pdf")
      | _, _ => Option.none

/-- C7 counterexample: the sheet has a brand/description column (at index 0)
and a `CCN` column, and non-empty data, yet the file is NOT named from the
brand value: the "brand" index is hardcoded to column 2, so the value `"b"`
of the third column is used instead of `"BrandX"`. -/
theorem pdf_file_name_brand_cex :
    pdf_file_name ["BrandSupplierDescription", "A", "B", "CCN"] "Page1"
      [["BrandX", "a", "b", "C1"]] = some "b_C1.pdf" ∧
    sanitize_filename "BrandX" ++ "_" ++ sanitize_filename "C1" ++ ".pdf" =
      "BrandX_C1.pdf" ∧
    ("b_C1.pdf" : String) ≠ "BrandX_C1.pdf" := by
  refine ⟨by decide, by decide, by decide⟩

/-- C7 (amended): with non-empty data and a `CCN` column present, the file is
named `{sanitize(row0[2])}_{sanitize(row0[ccnIdx])}.pdf` — the "brand" column
is the hardcoded third column, not one located by header name; with empty
data, or with no `CCN` column, the name falls back to `{pageId}.pdf`. -/
theorem pdf_file_name_spec (headers : List String) (pageId : String)
    (row0 : List String) (rest : List (List String)) (ci : Nat) (bv cv : String)
    (hccn : headers.findIdx? (fun h => h == "CCN") = some ci)
    (hb : row0[2]? = some bv) (hc : row0[ci]? = some cv) :
    pdf_file_name headers pageId (row0 :: rest) =
      some (sanitize_filename bv ++ "_" ++ sanitize_filename cv ++ ".pdf") ∧
    pdf_file_name headers pageId [] = some (pageId ++ ".pdf") ∧
    (∀ (hs2 : List String) (d2 : List (List String)),
      hs2.findIdx? (fun h => h == "CCN") = Option.none →
        pdf_file_name hs2 pageId d2 = some (pageId ++ ".pdf")) := by
  refine ⟨?_, rfl, ?_⟩
  · unfold pdf_file_name
    rw [hccn]
    dsimp only
    rw [hb, hc]
  · intro hs2 d2 h2
    cases d2 with
    | nil => rfl
    | cons r0 rs =>
      unfold pdf_file_name
      rw [h2]

/-- Witness for C7's amended theorem. -/
theorem pdf_file_name_spec_witness :
    pdf_file_name ["ID", "A", "Brand", "CCN"] "Page9" [["1", "a", "BrandX", "C7"]] =
      some (sanitize_filename "BrandX" ++ "_" ++ sanitize_filename "C7" ++ ".pdf") ∧
    pdf_file_name ["ID", "A", "Brand", "CCN"] "Page9" [] = some ("Page9" ++ ".pdf") ∧
    (∀ (hs2 : List String) (d2 : List (List String)),
      hs2.findIdx? (fun h => h == "CCN") = Option.none →
        pdf_file_name hs2 "Page9" d2 = some ("Page9" ++ ".pdf")) :=
  pdf_file_name_spec ["ID", "A", "Brand", "CCN"] "Page9" ["1", "a", "BrandX", "C7"]
    [] 3 "BrandX" "C7" (by decide) (by decide) (by decide)

/-! ## TextWrapper (inner loop of `save_as_pdf`, lines 147-157)

Python:
```
words = content.split(' ')
current_line = ""
for word in words:
    if pdf.get_string_width(current_line + word) < col_widths[j]:
        current_line += word + " "
    else:
        lines.append(current_line.strip())
        current_line = word + " "
lines.append(current_line.strip())
```
Strings are worked at the character-list level: `splitSp` is `split(' ')`,
`stripSp` is `strip()`, and `pdf.get_string_width` is the additive
per-character measure `lineWidth cw`. -/

def lineWidth (cw : Char → ℚ) (l : List Char) : ℚ := (l.map cw).sum

/-- Python `str.strip()`: drop whitespace from both ends. -/
def stripSp (l : List Char) : List Char :=
  ((l.dropWhile Char.isWhitespace).reverse.dropWhile Char.isWhitespace).reverse

/-- Python `str.split(' ')` (single-character separator, keeps empty parts). -/
def splitSpAux : List Char → List Char → List (List Char)
  | [], acc => [acc.reverse]
  | c :: cs, acc =>
    if c = ' ' then acc.reverse :: splitSpAux cs [] else splitSpAux cs (c :: acc)

def splitSp (l : List Char) : List (List Char) := splitSpAux l []

/-- The greedy word-wrap loop; `cl` is `current_line`. -/
def wrapWords (cw : Char → ℚ) (W : ℚ) : List (List Char) → List Char → List (List Char)
  | [], cl => [stripSp cl]
  | w :: ws, cl =>
    if lineWidth cw (cl ++ w) < W then wrapWords cw W ws (cl ++ w ++ [' '])
    else stripSp cl :: wrapWords cw W ws (w ++ [' '])

def wrapText (cw : Char → ℚ) (W : ℚ) (content : String) : List String :=
  (wrapWords cw W (splitSp content.data) []).map String.mk

/-! ### TextWrapper lemmas -/

theorem lineWidth_append (cw : Char → ℚ) (a b : List Char) :
    lineWidth cw (a ++ b) = lineWidth cw a + lineWidth cw b := by
  simp [lineWidth]

theorem lineWidth_sublist (cw : Char → ℚ) (hcw : ∀ c, 0 ≤ cw c)
    {a b : List Char} (h : List.Sublist a b) : lineWidth cw a ≤ lineWidth cw b := by
  refine List.Sublist.sum_le_sum (h.map cw) ?_
  intro x hx
  rcases List.mem_map.mp hx with ⟨c, _, rfl⟩
  exact hcw c

theorem stripSp_sublist (l : List Char) : List.Sublist (stripSp l) l := by
  unfold stripSp
  have h1 : List.Sublist (l.dropWhile Char.isWhitespace) l := List.dropWhile_sublist _
  have h2 : List.Sublist ((l.dropWhile Char.isWhitespace).reverse.dropWhile Char.isWhitespace)
      (l.dropWhile Char.isWhitespace).reverse := List.dropWhile_sublist _
  have h3 := h2.reverse
  rw [List.reverse_reverse] at h3
  exact h3.trans h1

theorem stripSp_width_le (cw : Char → ℚ) (hcw : ∀ c, 0 ≤ cw c) (l : List Char) :
    lineWidth cw (stripSp l) ≤ lineWidth cw l :=
  lineWidth_sublist cw hcw (stripSp_sublist l)

theorem stripSp_cons_ws (c : Char) (l : List Char) (h : c.isWhitespace = true) :
    stripSp (c :: l) = stripSp l := by
  unfold stripSp
  rw [List.dropWhile_cons, if_pos h]

theorem stripSp_append_space (l : List Char) : stripSp (l ++ [' ']) = stripSp l := by
  induction l with
  | nil => rfl
  | cons c cs ih =>
    by_cases h : c.isWhitespace
    · rw [List.cons_append, stripSp_cons_ws c _ h, ih, ← stripSp_cons_ws c cs h]
    · have hb : c.isWhitespace = false := by simpa using h
      unfold stripSp
      rw [List.cons_append, List.dropWhile_cons, if_neg (by simp [hb]),
        List.dropWhile_cons, if_neg (by simp [hb])]
      have hrev : (c :: (cs ++ [' '])).reverse = ' ' :: (c :: cs).reverse := by
        simp
      rw [hrev]
      rw [List.dropWhile_cons, if_pos (by decide)]

theorem wrapWords_ne_nil (cw : Char → ℚ) (W : ℚ) :
    ∀ (ws : List (List Char)) (cl : List Char), wrapWords cw W ws cl ≠ [] := by
  intro ws
  induction ws with
  | nil => intro cl; simp [wrapWords]
  | cons w rest ih =>
    intro cl
    by_cases hfit : lineWidth cw (cl ++ w) < W
    · simp only [wrapWords, if_pos hfit]
      exact ih _
    · simp only [wrapWords, if_neg hfit]
      simp

/-- Loop invariant: every emitted line either fits or is a stripped
over-wide single word. -/
theorem wrapWords_lines (cw : Char → ℚ) (W : ℚ) (hcw : ∀ c, 0 ≤ cw c)
    (P0 : List Char → Prop) :
    ∀ (ws : List (List Char)) (cl : List Char),
      (∀ w ∈ ws, P0 w) →
      (lineWidth cw (stripSp cl) ≤ W ∨
        ∃ w, P0 w ∧ stripSp cl = stripSp w ∧ W < lineWidth cw w) →
      ∀ l ∈ wrapWords cw W ws cl,
        lineWidth cw l ≤ W ∨ ∃ w, P0 w ∧ l = stripSp w ∧ W < lineWidth cw w := by
  intro ws
  induction ws with
  | nil =>
    intro cl _ hcl l hl
    simp only [wrapWords, List.mem_singleton] at hl
    subst hl
    exact hcl
  | cons w rest ih =>
    intro cl hP hcl l hl
    by_cases hfit : lineWidth cw (cl ++ w) < W
    · simp only [wrapWords, if_pos hfit] at hl
      refine ih _ (fun x hx => hP x (List.mem_cons_of_mem _ hx)) (Or.inl ?_) l hl
      have he : stripSp (cl ++ w ++ [' ']) = stripSp (cl ++ w) := stripSp_append_space _
      rw [he]
      exact le_trans (stripSp_width_le cw hcw _) (le_of_lt hfit)
    · simp only [wrapWords, if_neg hfit] at hl
      rcases List.mem_cons.mp hl with rfl | hl2
      · exact hcl
      · refine ih _ (fun x hx => hP x (List.mem_cons_of_mem _ hx)) ?_ l hl2
        by_cases hwide : lineWidth cw (stripSp w) ≤ W
        · exact Or.inl (by rw [stripSp_append_space]; exact hwide)
        · refine Or.inr ⟨w, hP w (List.mem_cons_self _ _), stripSp_append_space w, ?_⟩
          exact lt_of_lt_of_le (lt_of_not_le hwide) (stripSp_width_le cw hcw w)

theorem wrapText_empty (cw : Char → ℚ) (W : ℚ) (hW : 0 < W) :
    wrapText cw W "" = [""] := by
  unfold wrapText
  have hdata : ("" : String).data = [] := rfl
  rw [hdata]
  have hsplit : splitSp [] = [[]] := rfl
  rw [hsplit]
  have hcond : lineWidth cw ([] ++ []) < W := by simpa [lineWidth] using hW
  simp only [wrapWords, if_pos hcond]
  have hstrip : stripSp [' '] = [] := by decide
  rw [List.nil_append, List.nil_append, hstrip]
  rfl

/-- C6: for every input string and positive width (over any nonnegative
additive character measure) the wrapper returns at least one line, the empty
input yields exactly one empty line, and every returned line either measures
at most the available width or is a single over-wide word of the input
(stripped of surrounding whitespace, but never split). -/
theorem wrapText_spec (cw : Char → ℚ) (W : ℚ) (content : String)
    (hcw : ∀ c, 0 ≤ cw c) (hW : 0 < W) :
    wrapText cw W content ≠ [] ∧
    wrapText cw W "" = [""] ∧
    ∀ line ∈ wrapText cw W content,
      lineWidth cw line.data ≤ W ∨
      ∃ w ∈ splitSp content.data, line.data = stripSp w ∧ W < lineWidth cw w := by
  refine ⟨?_, wrapText_empty cw W hW, ?_⟩
  · unfold wrapText
    simp only [ne_eq, List.map_eq_nil_iff]
    exact wrapWords_ne_nil cw W _ _
  · intro line hline
    unfold wrapText at hline
    rcases List.mem_map.mp hline with ⟨l, hlmem, rfl⟩
    have hdata : (String.mk l).data = l := rfl
    rw [hdata]
    have := wrapWords_lines cw W hcw (fun w => w ∈ splitSp content.data)
      (splitSp content.data) [] (fun _ h => h)
      (Or.inl (by simp [stripSp, lineWidth]; exact le_of_lt hW)) l hlmem
    rcases this with h | ⟨w, hw1, hw2, hw3⟩
    · exact Or.inl h
    · exact Or.inr ⟨w, hw1, hw2, hw3⟩

/-- Witness for C6: unit character widths, width 5, content `"ab cd"`. -/
theorem wrapText_spec_witness :
    wrapText (fun _ => 1) 5 "ab cd" ≠ [] ∧
    wrapText (fun _ => 1) 5 "" = [""] ∧
    ∀ line ∈ wrapText (fun _ => 1) 5 "ab cd",
      lineWidth (fun _ => 1) line.data ≤ 5 ∨
      ∃ w ∈ splitSp ("ab cd" : String).data,
        line.data = stripSp w ∧ 5 < lineWidth (fun _ => 1) w :=
  wrapText_spec (fun _ => 1) 5 "ab cd" (fun _ => by norm_num) (by norm_num)

end ExcelToPdf
